import Mathlib

/-!
Verification development for the SimpleColoredLogs terminal logger
(`src/logs/logger.py`).

The Python module is one process-wide class `Logs` whose central method
`_log` runs a filter chain (enabled flag, minimum severity, category
allow/deny lists, sampling, per-category rate limiting), then — under a
process-wide lock — enriches, redacts, formats, outputs, counts and
optionally session-records the message.

This file shallowly embeds the parts of that pipeline that the verified
properties talk about:

* severities (`LogLevel`) with their `IntEnum` ordering;
* the sensitive-data redaction pass (`_redact_sensitive_data`) with an
  executable implementation of the seven built-in regular expressions
  (`re.sub` with `IGNORECASE`, left-to-right non-overlapping matching);
* the logger state and the `_log` filter chain / accepted-record body
  (`logCallF`), with times and sampling draws passed in as explicit
  rational-number oracles;
* the adaptive controller (`_auto_adjust_log_level`);
* session recording (`start_session_recording` / `stop_session_recording`);
* the file sink (`_write_to_file` / `_rotate_logs`) over an abstract
  file-system map;
* `configure`;
* a lock-aware model capturing that `threading.Lock` is not re-entrant;
* an exception-flow model of the `try/except` skeleton of the pipeline.

Machine floats (`time.time()`, `datetime`) are modelled as rationals;
strings are modelled as Lean `String`/`List Char` (ASCII word/space/digit
classes, which cover every pattern constant in the source).
-/

namespace SCLogs

/-- Severities, mirroring `class LogLevel(IntEnum)` in logger.py
(TRACE = -1 … SECURITY = 12). -/
inductive LogLevel where
  | TRACE
  | DEBUG
  | INFO
  | SUCCESS
  | LOADING
  | PROCESSING
  | PROGRESS
  | WAITING
  | NOTICE
  | WARN
  | ERROR
  | CRITICAL
  | FATAL
  | SECURITY
deriving DecidableEq, Repr

/-- The integer value of each severity, exactly as assigned in the source. -/
def LogLevel.toInt : LogLevel → Int
  | .TRACE => -1
  | .DEBUG => 0
  | .INFO => 1
  | .SUCCESS => 2
  | .LOADING => 3
  | .PROCESSING => 4
  | .PROGRESS => 5
  | .WAITING => 6
  | .NOTICE => 7
  | .WARN => 8
  | .ERROR => 9
  | .CRITICAL => 10
  | .FATAL => 11
  | .SECURITY => 12

instance : LE LogLevel := ⟨fun a b => a.toInt ≤ b.toInt⟩

instance : LT LogLevel := ⟨fun a b => a.toInt < b.toInt⟩

instance (a b : LogLevel) : Decidable (a ≤ b) :=
  inferInstanceAs (Decidable (a.toInt ≤ b.toInt))

instance (a b : LogLevel) : Decidable (a < b) :=
  inferInstanceAs (Decidable (a.toInt < b.toInt))

/-- `level.name` of the Python `IntEnum`. -/
def LogLevel.levelName : LogLevel → String
  | .TRACE => "TRACE"
  | .DEBUG => "DEBUG"
  | .INFO => "INFO"
  | .SUCCESS => "SUCCESS"
  | .LOADING => "LOADING"
  | .PROCESSING => "PROCESSING"
  | .PROGRESS => "PROGRESS"
  | .WAITING => "WAITING"
  | .NOTICE => "NOTICE"
  | .WARN => "WARN"
  | .ERROR => "ERROR"
  | .CRITICAL => "CRITICAL"
  | .FATAL => "FATAL"
  | .SECURITY => "SECURITY"

/-- Output formats, mirroring `class LogFormat(IntEnum)`. -/
inductive LogFormat where
  | SIMPLE
  | STANDARD
  | DETAILED
  | JSON
deriving DecidableEq, Repr

/-! ## Redaction

`Logs._redact_sensitive_data` applies, in order, the seven patterns of
`Logs._redact_patterns` with `re.sub(pattern, REDACTED, msg, re.IGNORECASE)`.
Below is an executable implementation of exactly those seven regular
expressions over `List Char`, following Python `re` semantics: scan left to
right, at each position attempt a (backtracking, greedy) match, replace a
match with the marker and resume immediately after the matched text;
matches are found against the original text (word-boundary context uses the
original neighbouring character, not the substituted marker). -/

/-- ASCII `\d`. -/
def isPyDigit (c : Char) : Bool := '0' ≤ c && c ≤ '9'

/-- ASCII `\s` (space, tab, newline, carriage return, form feed, vertical tab). -/
def isPySpace (c : Char) : Bool :=
  c == ' ' || c == '\t' || c == '\n' || c == '\r' || c == '\x0b' || c == '\x0c'

/-- ASCII `\w` (letters, digits, underscore). -/
def isPyWord (c : Char) : Bool :=
  ('a' ≤ c && c ≤ 'z') || ('A' ≤ c && c ≤ 'Z') || isPyDigit c || c == '_'

/-- The character class `["\s:=]` used by the keyword patterns. -/
def isSepClass (c : Char) : Bool :=
  c == '"' || isPySpace c || c == ':' || c == '='

/-- A word boundary `\b` holds just before a digit iff the previous character
is absent or not a word character. -/
def boundaryBefore : Option Char → Bool
  | none => true
  | some c => !isPyWord c

/-- A word boundary `\b` holds just after a digit iff the next character is
absent or not a word character. -/
def boundaryAfter : List Char → Bool
  | [] => true
  | c :: _ => !isPyWord c

/-- Consume exactly `k` characters satisfying `p`; return the remainder. -/
def takeExact (p : Char → Bool) : Nat → List Char → Option (List Char × List Char)
  | 0, s => some ([], s)
  | _ + 1, [] => none
  | k + 1, c :: s =>
    if p c then
      match takeExact p k s with
      | some (m, r) => some (c :: m, r)
      | none => none
    else none

/-- Consume one expected character (case-insensitively when it is a letter). -/
def stripCIChar (k : Char) : List Char → Option (List Char)
  | [] => none
  | c :: s => if c.toLower == k.toLower then some s else none

/-- Consume an expected keyword case-insensitively (`re.IGNORECASE`). -/
def stripCI : List Char → List Char → Option (List Char)
  | [], s => some s
  | k :: ks, s =>
    match stripCIChar k s with
    | some s' => stripCI ks s'
    | none => none

/-- Split a list into its maximal prefix satisfying `p` and the rest. -/
def takeWhileSplit (p : Char → Bool) : List Char → List Char × List Char
  | [] => ([], [])
  | c :: s =>
    if p c then
      let (m, r) := takeWhileSplit p s
      (c :: m, r)
    else ([], c :: s)

/-- A match result: the remainder of the input after the matched text (the
matched text itself is the consumed prefix). -/
abbrev MatchRes := Option (List Char)

/-- Match `\b\d{16}\b` at the current position (pattern 1, credit cards). -/
def matchCC (prev : Option Char) (s : List Char) : MatchRes :=
  if boundaryBefore prev then
    match takeExact isPyDigit 16 s with
    | some (_, r) => if boundaryAfter r then some r else none
    | none => none
  else none

/-- Match `\b\d{3}-\d{2}-\d{4}\b` at the current position (pattern 2, SSN). -/
def matchSSN (prev : Option Char) (s : List Char) : MatchRes :=
  if boundaryBefore prev then
    match takeExact isPyDigit 3 s with
    | some (_, r1) =>
      match r1 with
      | '-' :: r2 =>
        match takeExact isPyDigit 2 r2 with
        | some (_, r3) =>
          match r3 with
          | '-' :: r4 =>
            match takeExact isPyDigit 4 r4 with
            | some (_, r5) => if boundaryAfter r5 then some r5 else none
            | none => none
          | _ => none
        | none => none
      | _ => none
    | none => none
  else none

/-- Greatest index `q` with `1 ≤ q < run.length` whose character is not
whitespace, if any: the backtracking target for `["\s:=]+\S+` when the
separator run reaches the end of the input. -/
def lastNonSpaceIdx (run : List Char) : Option Nat :=
  let idxs := (List.range run.length).filter fun q =>
    1 ≤ q && (run.getD q ' ' |> isPySpace |> not)
  idxs.getLast?

/-- Match the tail `["\s:=]+\S+` of the keyword patterns, with Python `re`
backtracking: the separator class run is taken greedily; if the input ends
inside it, the engine gives back separator characters one at a time until
`\S+` can match (the class contains the non-space characters quote, colon
and equals). Returns the matched tail and the remainder. -/
def matchKwTail (s : List Char) : MatchRes :=
  let (run, rest) := takeWhileSplit isSepClass s
  if run.isEmpty then none
  else
    match rest with
    | _ :: _ =>
      -- a character follows the maximal run; it is not in the class, hence
      -- not whitespace, so `\S+` matches greedily from it
      let (_, rest2) := takeWhileSplit (fun c => !isPySpace c) rest
      some rest2
    | [] =>
      match lastNonSpaceIdx run with
      | some q =>
        let (_, rest2) := takeWhileSplit (fun c => !isPySpace c) (run.drop q)
        some rest2
      | none => none

/-- Match `kw["\s:=]+\S+` case-insensitively at the current position
(patterns for password / secret / token). -/
def matchKeyword (kw : List Char) (_prev : Option Char) (s : List Char) : MatchRes :=
  match stripCI kw s with
  | some r => matchKwTail r
  | none => none

/-- Match `api[_-]?key["\s:=]+\S+` case-insensitively (pattern 4): greedy
optional `[_-]`, with fallback to the empty alternative. -/
def matchApiKey (_prev : Option Char) (s : List Char) : MatchRes :=
  match stripCI "api".data s with
  | some r1 =>
    match r1 with
    | c :: r1' =>
      if c == '_' || c == '-' then
        match stripCI "key".data r1' with
        | some r2 => matchKwTail r2
        | none =>
          match stripCI "key".data r1 with
          | some r2 => matchKwTail r2
          | none => none
      else
        match stripCI "key".data r1 with
        | some r2 => matchKwTail r2
        | none => none
    | [] => none
  | none => none

/-- Match `Bearer\s+\S+` case-insensitively (pattern 7). `\s` and `\S` are
disjoint, so no backtracking is possible here. -/
def matchBearer (_prev : Option Char) (s : List Char) : MatchRes :=
  match stripCI "bearer".data s with
  | some r =>
    let (sp, r1) := takeWhileSplit isPySpace r
    if sp.isEmpty then none
    else
      let (w, r2) := takeWhileSplit (fun c => !isPySpace c) r1
      if w.isEmpty then none else some r2
  | none => none

/-- The replacement marker used by `_redact_sensitive_data`. -/
def redactedMarker : List Char := "[REDACTED]".data

/-- One `re.sub` pass for a single pattern: scan left to right, replace each
(leftmost, non-overlapping) match, track the previous original character for
word-boundary context (the character preceding the resumption point in the
original text, i.e. the last matched character). `fuel` only bounds
recursion; every matcher consumes at least one character, so
`fuel = s.length` is always enough. -/
def subPass (m : Option Char → List Char → MatchRes) :
    Nat → Option Char → List Char → List Char
  | 0, _, s => s
  | fuel + 1, prev, s =>
    match s with
    | [] => []
    | c :: rest =>
      match m prev s with
      | some rem =>
        redactedMarker ++ subPass m fuel ((s.take (s.length - rem.length)).getLast?) rem
      | none => c :: subPass m fuel (some c) rest

/-- `re.sub(pattern, REDACTED, s, flags=IGNORECASE)` for one pattern. -/
def reSub (m : Option Char → List Char → MatchRes) (s : List Char) : List Char :=
  subPass m s.length none s

/-- The seven built-in matchers of `Logs._redact_patterns`, in source order. -/
def redactMatchers : List (Option Char → List Char → MatchRes) :=
  [matchCC, matchSSN,
   matchKeyword "password".data,
   matchApiKey,
   matchKeyword "secret".data,
   matchKeyword "token".data,
   matchBearer]

/-- One full redaction pass over all seven patterns (the `for pattern in
cls._redact_patterns` loop). -/
def redactOnce (s : String) : String :=
  ⟨redactMatchers.foldl (fun acc m => reSub m acc) s.data⟩

/-- `Logs._redact_sensitive_data`: identity when redaction is disabled,
otherwise the sequential pattern substitution. -/
def redactSensitiveData (redactEnabled : Bool) (message : String) : String :=
  if redactEnabled then redactOnce message else message

/-! ## Logger state

Class-level mutable attributes of `Logs`, with their declared defaults.
Wall-clock instants (`time.time()`, `datetime.now()`) are rationals;
`_last_adjust_time` and `_last_flush` are initialised at import time, here
normalised to instant `0`. Python dicts keyed by strings/levels are
association lists. Alert handlers, the remote socket and the file handle
are external effects and live in the dedicated models further below. -/

/-- A snapshot appended to `_session_logs` by `_log` step 6 (timestamp,
`level.name`, `category.value`, redacted message; the caller-introspection
metadata fields are not modelled). -/
structure SessionRecord where
  timestamp : ℚ
  levelName : String
  category : String
  message : String
deriving DecidableEq, Repr

/-- The mutable class-level state of `Logs`, with the source's defaults. -/
structure LogState where
  enabled : Bool := true
  showTimestamp : Bool := true
  minLevel : LogLevel := .DEBUG
  logFile : Option String := none
  colorize : Bool := true
  formatType : LogFormat := .STANDARD
  showMetadata : Bool := false
  showThreadId : Bool := false
  autoFlush : Bool := true
  maxFileSize : Option Nat := some 10485760
  backupCount : Nat := 3
  categoryFilter : Option (List String) := none
  excludedCategories : List String := []
  bufferEnabled : Bool := false
  sessionRecording : Bool := false
  sessionLogs : List SessionRecord := []
  sessionStart : Option ℚ := none
  redactEnabled : Bool := false
  remoteEnabled : Bool := false
  remoteHost : Option String := none
  remotePort : Option Nat := none
  samplingRate : ℚ := 1
  rateLimits : List (String × Nat × ℚ) := []
  maxLogsPerMinute : Nat := 1000
  rateLimitEnabled : Bool := false
  autoAdjustLevel : Bool := false
  noiseThreshold : Nat := 100
  lastAdjustTime : ℚ := 0
  lockHeld : Bool := false
  logCount : List (LogLevel × Nat) := []
  categoryCount : List (String × Nat) := []
  errorCountByCategory : List (String × Nat) := []
deriving DecidableEq, Repr

/-- The state right after module import (all defaults). -/
def initialLogState : LogState := {}

/-- Store `v` under key `k` in an association list (Python dict assignment). -/
def alUpdate {κ α : Type} [DecidableEq κ] : List (κ × α) → κ → α → List (κ × α)
  | [], k, v => [(k, v)]
  | (k', v') :: t, k, v =>
    if k' = k then (k, v) :: t else (k', v') :: alUpdate t k v

/-- Increment a counter dict entry (`cls._log_count[level] += 1` and the
`defaultdict(int)` category counters). -/
def alBump {κ : Type} [DecidableEq κ] : List (κ × Nat) → κ → List (κ × Nat)
  | [], k => [(k, 1)]
  | (k', v) :: t, k =>
    if k' = k then (k, v + 1) :: t else (k', v) :: alBump t k

/-- `sum(cls._log_count.values())` as read by the adaptive controller. -/
def totalLogCount (s : LogState) : Nat := (s.logCount.map Prod.snd).sum

/-! ## Filter chain -/

/-- `Logs._should_log_category`: deny list first, then the allow list; an
empty (falsy) allow list passes everything, mirroring
`if cls._category_filter and category_str not in cls._category_filter`.
Categories are identified with their `.value` strings: both `Category(str)`
coercion and the `CustomCategory` fallback in `_log` preserve the string. -/
def shouldLogCategory (filter : Option (List String)) (excluded : List String)
    (category : String) : Bool :=
  if excluded.contains category then false
  else
    match filter with
    | some l => if !l.isEmpty && !(l.contains category) then false else true
    | none => true

/-- `Logs._should_sample`: the draw of `random.random()` is passed in as an
oracle; a rate of at least 1 short-circuits without drawing. -/
def shouldSample (rate draw : ℚ) : Bool :=
  if 1 ≤ rate then true else decide (draw < rate)

/-- `Logs._check_rate_limit`: per-category 60-second window with a
`(count, window_start)` pair under key `"rate_limit_" ++ category`; returns
the decision and the updated `_rate_limits` dict. -/
def checkRateLimit (enabled : Bool) (maxPerMinute : Nat)
    (limits : List (String × Nat × ℚ)) (category : String) (now : ℚ) :
    Bool × List (String × Nat × ℚ) :=
  if !enabled then (true, limits)
  else
    let key := "rate_limit_" ++ category
    match limits.lookup key with
    | some (count, windowStart) =>
      if 60 < now - windowStart then (true, alUpdate limits key (1, now))
      else if maxPerMinute ≤ count then (false, limits)
      else (true, alUpdate limits key (count + 1, windowStart))
    | none => (true, alUpdate limits key (1, now))

/-- A sequence of `_check_rate_limit` decisions for one category at the
given instants, threading the `_rate_limits` dict through. -/
def runRateLimit (enabled : Bool) (maxPerMinute : Nat) (category : String) :
    List (String × Nat × ℚ) → List ℚ → List Bool × List (String × Nat × ℚ)
  | st, [] => ([], st)
  | st, t :: ts =>
    let r := checkRateLimit enabled maxPerMinute st category t
    let rest := runRateLimit enabled maxPerMinute category r.2 ts
    (r.1 :: rest.1, rest.2)

/-! ## Adaptive controller -/

/-- Message constant standing for the f-string notice emitted by
`_auto_adjust_log_level` (its numeric rate interpolation is immaterial). -/
def autoAdjustMsg : String := "Auto-adjusted log level to WARN"

/-- `Logs._auto_adjust_log_level`, as a state transformer plus a flag saying
whether the `cls.warn(Category.SYSTEM, ...)` notice is emitted (it is
emitted exactly when the minimum severity was just raised). `now` stands for
both `time.time()` and `datetime.now()` of the same instant. -/
def autoAdjustStep (s : LogState) (now : ℚ) : LogState × Bool :=
  if !s.autoAdjustLevel then (s, false)
  else
    match s.sessionStart with
    | none => (s, false)
    | some start =>
      if now - s.lastAdjustTime < 60 then (s, false)
      else if 0 < (now - start) / 60 then
        if (s.noiseThreshold : ℚ) < (totalLogCount s : ℚ) / ((now - start) / 60) then
          if s.minLevel < LogLevel.WARN then
            ({ s with lastAdjustTime := now, minLevel := LogLevel.WARN }, true)
          else ({ s with lastAdjustTime := now }, false)
        else ({ s with lastAdjustTime := now }, false)
      else ({ s with lastAdjustTime := now }, false)

/-! ## The central `_log` method

`logCallCore` is the body of `Logs._log` for one call: the filter chain in
source order (enabled/severity, category, sampling, rate limit), then the
adaptive-controller step, then the accepted-record section that in the
source runs inside `with cls._lock:` (redaction, counters, session append).
Console/file/remote/alert side effects are modelled by the dedicated
definitions below (`outputStream`, `writeToFileFS`, `logPipelineE`); they do
not feed back into this state. The returned `Bool` says whether the record
was emitted (reached the accepted-record section).

The adaptive controller's nested `cls.warn` call is a genuine recursive
`_log` invocation; `warnRec` performs it. `logCallF` closes the recursion
with a fuel bound: one level of nesting is exact, because the nested call
runs with `lastAdjustTime = now`, so its own controller step cannot fire
again (`now - now = 0 < 60`). The nested call reuses the caller's sampling
oracle and instant. -/
def logAcceptedBody (s : LogState) (now : ℚ) (lvl : LogLevel)
    (cat msg : String) : LogState :=
  let msgR := redactSensitiveData s.redactEnabled msg
  let s' := { s with
    logCount := alBump s.logCount lvl,
    categoryCount := alBump s.categoryCount cat,
    errorCountByCategory :=
      if LogLevel.ERROR ≤ lvl then alBump s.errorCountByCategory cat
      else s.errorCountByCategory }
  if s'.sessionRecording then
    { s' with sessionLogs := s'.sessionLogs ++ [⟨now, lvl.levelName, cat, msgR⟩] }
  else s'

/-- One `_log` call given a resolver `warnRec` for the nested adaptive
notice (see `logCallF`). -/
def logCallCore (warnRec : LogState → LogState) (s : LogState)
    (draw now : ℚ) (lvl : LogLevel) (cat msg : String) : Bool × LogState :=
  if !s.enabled || lvl < s.minLevel then (false, s)
  else if !(shouldLogCategory s.categoryFilter s.excludedCategories cat) then (false, s)
  else if !(shouldSample s.samplingRate draw) then (false, s)
  else
    let rl := checkRateLimit s.rateLimitEnabled s.maxLogsPerMinute s.rateLimits cat now
    let s1 := { s with rateLimits := rl.2 }
    if !rl.1 then (false, s1)
    else
      let adj := autoAdjustStep s1 now
      let s2 := if adj.2 then warnRec adj.1 else adj.1
      (true, logAcceptedBody s2 now lvl cat msg)

/-- `_log` with a fuel bound on the adaptive-notice recursion. -/
def logCallF : Nat → LogState → ℚ → ℚ → LogLevel → String → String → Bool × LogState
  | 0, s, draw, now, lvl, cat, msg =>
    logCallCore (fun st => st) s draw now lvl cat msg
  | fuel + 1, s, draw, now, lvl, cat, msg =>
    logCallCore
      (fun st => (logCallF fuel st draw now .WARN "SYSTEM" autoAdjustMsg).2)
      s draw now lvl cat msg

/-- One call of `Logs._log`. Fuel 2 is exact (see `logCallCore`). -/
def logCall (s : LogState) (draw now : ℚ) (lvl : LogLevel) (cat msg : String) :
    Bool × LogState :=
  logCallF 2 s draw now lvl cat msg

/-- The inputs of one log call: sampling-oracle draw, instant, severity,
category string and message. -/
structure CallInput where
  draw : ℚ
  now : ℚ
  level : LogLevel
  category : String
  message : String
deriving DecidableEq, Repr

/-- `logCall` on a packaged input. -/
def logCallI (s : LogState) (c : CallInput) : Bool × LogState :=
  logCall s c.draw c.now c.level c.category c.message

/-- A sequence of log calls. -/
def runCalls (s : LogState) : List CallInput → LogState
  | [] => s
  | c :: cs => runCalls (logCallI s c).2 cs

/-- The session snapshots a sequence of calls appends: for each call that is
emitted while recording is on, one snapshot carrying the redacted message,
in emission order. -/
def capturedRecords (s : LogState) : List CallInput → List SessionRecord
  | [] => []
  | c :: cs =>
    let r := logCallI s c
    (if s.sessionRecording && r.1 then
      [⟨c.now, c.level.levelName, c.category,
        redactSensitiveData s.redactEnabled c.message⟩]
     else []) ++ capturedRecords r.2 cs

/-! ## Session recording (sequential semantics)

`start_session_recording` and `stop_session_recording` mutate the session
fields and then log an informational notice through the full `_log`
pipeline. Here the process-wide lock is treated as re-entrant so that the
notice call completes; the fact that the real `threading.Lock` is not
re-entrant (so these operations self-deadlock) is established separately by
the lock-aware model below. -/

/-- The notice `start_session_recording` logs. -/
def sessionStartMsg : String := "Session-Recording gestartet."

/-- Constant standing for the f-string notice `stop_session_recording` logs
(its entry-count interpolation is immaterial). -/
def sessionStopMsg : String := "Session-Recording beendet."

/-- `Logs.start_session_recording`: flip recording on, clear the captured
buffer, timestamp the start, then log the notice. -/
def startSessionRecordingRun (s : LogState) (draw now : ℚ) : LogState :=
  let s1 := { s with sessionRecording := true, sessionLogs := [],
                     sessionStart := some now }
  (logCall s1 draw now .INFO "SYSTEM" sessionStartMsg).2

/-- `Logs.stop_session_recording`: if recording, flip it off, log the
notice, and return `cls._session_logs`. -/
def stopSessionRecordingRun (s : LogState) (draw now : ℚ) :
    List SessionRecord × LogState :=
  if s.sessionRecording then
    let s1 := { s with sessionRecording := false }
    let s2 := (logCall s1 draw now .INFO "SYSTEM" sessionStopMsg).2
    (s2.sessionLogs, s2)
  else ([], s)

/-! ## Console routing -/

/-- The two console streams. -/
inductive ConsoleStream where
  | stdout
  | stderr
deriving DecidableEq, Repr

/-- The stream `Logs._output` prints the console line to:
`sys.stderr if level >= LogLevel.WARN else sys.stdout` (identical in the
colorized and stripped branches). -/
def outputStream (level : LogLevel) : ConsoleStream :=
  if LogLevel.WARN ≤ level then .stderr else .stdout

/-! ## File sink and rotation

The log directory is modelled as the active file's content plus a map from
backup suffix `k` (the file `<log_file>.k`) to content; file size in bytes
is content length. `Path.rename` moves (source removed, destination
overwritten), `unlink` deletes. -/

/-- The file-system slice the file sink touches. -/
structure LogFS where
  active : Option String
  backup : Nat → Option String

/-- `src.rename(dst)` for `src = <file>.i`, `dst = <file>.(i+1)`, guarded by
`if src.exists()`. -/
def renameStep (b : Nat → Option String) (i : Nat) : Nat → Option String :=
  match b i with
  | some content =>
    fun k => if k = i + 1 then some content else if k = i then none else b k
  | none => b

/-- The shift loop `for i in range(backup_count - 1, 0, -1)`: process index
`i` first (oldest first), then `i - 1`, …, down to `1`. -/
def shiftFrom (b : Nat → Option String) : Nat → (Nat → Option String)
  | 0 => b
  | i + 1 => shiftFrom (renameStep b (i + 1)) i

/-- The file moves of `Logs._rotate_logs` (guard `if cls.backup_count > 0`):
delete the oldest backup `.N`, shift `.k → .k+1` oldest first, rename the
active file to `.1`. The trailing `cls.info(...)` notice and
`_compress_old_logs` (disabled by default) are handled by the caller
(`writeToFileFS`); rotation is only ever invoked with an existing active
file (the size check in `_write_to_file` requires `log_file.exists()`). -/
def rotateLogsFS (backupCount : Nat) (fs : LogFS) : LogFS :=
  if backupCount = 0 then fs
  else
    let b1 : Nat → Option String :=
      fun k => if k = backupCount then none else fs.backup k
    let b2 := shiftFrom b1 (backupCount - 1)
    let b3 : Nat → Option String :=
      fun k => if k = 1 then fs.active else b2 k
    { active := none, backup := b3 }

/-- `open(path, 'a')` followed by `f.write(data)`: append, creating the file
when absent. -/
def appendActive (fs : LogFS) (data : String) : LogFS :=
  { fs with active := some ((fs.active.getD "") ++ data) }

/-- The file effect of `Logs._write_to_file data`: rotate first when
`cls.max_file_size` is truthy, the file exists and its size strictly exceeds
the ceiling; then append. `noticeWrite` is the data that the re-entrant
`cls.info(Category.SYSTEM, "Logdatei rotiert: ...")` at the end of
`_rotate_logs` appends to the now-fresh active file through its own
`_write_to_file` (which sees no existing active file, hence does not rotate
again); it is the empty string when that notice is filtered out or goes to
the buffer. -/
def writeToFileFS (maxFileSize : Option Nat) (backupCount : Nat)
    (noticeWrite : String) (fs : LogFS) (data : String) : LogFS :=
  let needRotate :=
    match maxFileSize, fs.active with
    | some m, some content => !(m == 0) && decide (m < content.length)
    | _, _ => false
  if needRotate then
    appendActive (appendActive (rotateLogsFS backupCount fs) noticeWrite) data
  else appendActive fs data

/-! ## `configure` -/

/-- The keyword parameters of `Logs.configure` with their declared default
values; omitting a parameter at the call site means passing this default.
`log_file` is a string path (`None` ↦ `none`; the empty string is falsy in
`if log_file:`); the category lists carry the `.value` strings of the passed
`Category` members. -/
structure ConfigureArgs where
  min_level : LogLevel := .DEBUG
  log_file : Option String := none
  format_type : LogFormat := .STANDARD
  show_metadata : Bool := false
  show_thread_id : Bool := false
  enable_buffer : Bool := false
  enable_redaction : Bool := false
  enable_remote : Bool := false
  remote_host : Option String := none
  remote_port : Nat := 514
  category_filter : Option (List String) := none
  exclude_categories : Option (List String) := none
  sampling_rate : ℚ := 1
deriving DecidableEq, Repr

/-- `Logs.configure`: every governed setting is assigned unconditionally;
the sampling rate is clamped to `[0, 1]`; a falsy (`None` or empty)
`log_file` / `category_filter` / `exclude_categories` clears the
corresponding setting. The `mkdir` of the log directory is an external
effect and not modelled. -/
def configure (s : LogState) (a : ConfigureArgs) : LogState :=
  let lf : Option String :=
    match a.log_file with
    | some p => if p.isEmpty then none else some p
    | none => none
  let filt : Option (List String) :=
    match a.category_filter with
    | some l => if l.isEmpty then none else some l
    | none => none
  let excl : List String :=
    match a.exclude_categories with
    | some l => l
    | none => []
  { s with
    minLevel := a.min_level,
    formatType := a.format_type,
    showMetadata := a.show_metadata,
    showThreadId := a.show_thread_id,
    bufferEnabled := a.enable_buffer,
    redactEnabled := a.enable_redaction,
    remoteEnabled := a.enable_remote,
    remoteHost := a.remote_host,
    remotePort := some a.remote_port,
    samplingRate := max 0 (min 1 a.sampling_rate),
    logFile := lf,
    categoryFilter := filt,
    excludedCategories := excl }

/-- The settings `configure` governs, for stating that the post-call values
do not depend on the prior state. -/
structure ConfiguredView where
  minLevel : LogLevel
  logFile : Option String
  formatType : LogFormat
  showMetadata : Bool
  showThreadId : Bool
  bufferEnabled : Bool
  redactEnabled : Bool
  remoteEnabled : Bool
  remoteHost : Option String
  remotePort : Option Nat
  samplingRate : ℚ
  categoryFilter : Option (List String)
  excludedCategories : List String
deriving DecidableEq, Repr

/-- Project the governed settings out of a state. -/
def configuredView (s : LogState) : ConfiguredView :=
  ⟨s.minLevel, s.logFile, s.formatType, s.showMetadata, s.showThreadId,
   s.bufferEnabled, s.redactEnabled, s.remoteEnabled, s.remoteHost,
   s.remotePort, s.samplingRate, s.categoryFilter, s.excludedCategories⟩

/-! ## Lock-aware model

`Logs._lock` is a `threading.Lock`, which is not re-entrant: a thread that
executes `with cls._lock:` while it already holds the lock blocks forever.
The definitions below model one thread's control flow with the lock held
state explicit; `none` means the operation never returns (the thread blocks
on the lock it holds itself). The adaptive-controller step (disabled in the
default configuration) is modelled for its state effect only. -/

/-- `Logs._log` with the lock explicit: the filter chain runs before the
lock; an accepted record then requires `with cls._lock:`. -/
def logAttemptLocked (s : LogState) (draw now : ℚ) (lvl : LogLevel)
    (cat msg : String) : Option LogState :=
  if !s.enabled || lvl < s.minLevel then some s
  else if !(shouldLogCategory s.categoryFilter s.excludedCategories cat) then some s
  else if !(shouldSample s.samplingRate draw) then some s
  else
    let rl := checkRateLimit s.rateLimitEnabled s.maxLogsPerMinute s.rateLimits cat now
    let s1 := { s with rateLimits := rl.2 }
    if !rl.1 then some s1
    else
      let s2 := (autoAdjustStep s1 now).1
      if s2.lockHeld then none
      else
        let s3 := logAcceptedBody { s2 with lockHeld := true } now lvl cat msg
        some { s3 with lockHeld := false }

/-- `Logs.start_session_recording` with the lock explicit: it acquires
`cls._lock` and then, still inside the `with` block, calls
`cls.info(Category.SYSTEM, "Session-Recording gestartet.")`, which is a full
`_log` call. -/
def startSessionRecordingLocked (s : LogState) (draw now : ℚ) :
    Option LogState :=
  if s.lockHeld then none
  else
    let s1 := { s with lockHeld := true, sessionRecording := true,
                       sessionLogs := [], sessionStart := some now }
    match logAttemptLocked s1 draw now .INFO "SYSTEM" sessionStartMsg with
    | none => none
    | some s2 => some { s2 with lockHeld := false }

/-! ## Exception flow

`try/except` structure of the pipeline's fallible steps, in the `Except`
monad: a primitive that the environment makes fail corresponds to a Python
statement raising, `tryE` is a `try/except Exception` block, and the
returned string list collects the `print(..., file=sys.stderr)` error
reports. An overall `.error` outcome would mean an exception propagating
out of the log call into application code. -/

/-- `try x except Exception as e: h e`. -/
def tryE {α : Type} (x : Except String α) (h : String → Except String α) :
    Except String α :=
  match x with
  | .error e => h e
  | .ok a => .ok a

/-- Caller metadata collected by `Logs._get_metadata`. -/
structure CallMetadata where
  file : String
  line : Nat
  function : String
deriving DecidableEq, Repr

/-- The degraded metadata of the `except` branch of `_get_metadata`
(`{"file": "", "line": 0, "function": "", "thread": None}`). -/
def emptyMetadata : CallMetadata := ⟨"", 0, ""⟩

/-- The outcomes the environment assigns to each fallible primitive of one
log call: the `inspect.stack()` introspection, whether the size check asks
for rotation, the rotation file operations, the file open/write, each
registered alert handler, and the remote datagram send. -/
structure FaultEnv where
  introspectRes : Except String CallMetadata
  rotationNeeded : Bool
  unlinkRes : Except String Unit
  renameRes : Except String Unit
  openWriteRes : Except String Unit
  alertHandlerRes : List (Except String Unit)
  remoteRes : Except String Unit

/-- `Logs._get_metadata`: the whole body is wrapped in `try/except`, the
`except` branch returns the empty metadata record. -/
def getMetadataE (env : FaultEnv) : Except String CallMetadata :=
  tryE env.introspectRes (fun _ => .ok emptyMetadata)

/-- The file operations of `Logs._rotate_logs` (unlink the oldest backup,
the rename loop, the rename of the active file): any of them may raise, and
`_rotate_logs` itself has no handler. -/
def rotateLogsE (env : FaultEnv) : Except String Unit := do
  let _ ← env.unlinkRes
  let _ ← env.renameRes
  pure ()

/-- `Logs._write_to_file`: the size check plus rotation plus the
append-and-flush all sit inside one `try`, whose `except` prints
`"[Logs] Dateischreibfehler: ..."` to the error stream and returns. -/
def writeToFileE (env : FaultEnv) : Except String (List String) :=
  tryE
    (do
      if env.rotationNeeded then rotateLogsE env
      let _ ← env.openWriteRes
      pure [])
    (fun e => .ok ["Dateischreibfehler: " ++ e])

/-- The handler loop of `Logs._trigger_alerts`: each handler call is wrapped
in its own `try/except`, which prints `"[Logs] Alert-Handler-Fehler: ..."`
and continues with the remaining handlers. -/
def triggerAlertsE : List (Except String Unit) → Except String (List String)
  | [] => .ok []
  | h :: t => do
    let r ← tryE (do let _ ← h; pure ([] : List String))
      (fun e => .ok ["Alert-Handler-Fehler: " ++ e])
    let rs ← triggerAlertsE t
    pure (r ++ rs)

/-- `Logs._send_to_remote`: socket create/send/close inside
`try ... except Exception: pass`. -/
def sendToRemoteE (env : FaultEnv) : Except String Unit :=
  tryE env.remoteRes (fun _ => .ok ())

/-- The fallible steps of one accepted `_log` call in source order:
metadata capture, file write (with possible rotation), alert handlers,
remote forward. The result collects the error-stream reports; an `.error`
result would be an exception reaching the caller. -/
def logPipelineE (env : FaultEnv) : Except String (List String) := do
  let _ ← getMetadataE env
  let r1 ← writeToFileE env
  let r2 ← triggerAlertsE env.alertHandlerRes
  let _ ← sendToRemoteE env
  pure (r1 ++ r2)

/-! ## Concrete states used by the witness theorems -/

/-- A state with an allow list and a deny list, default filters otherwise. -/
def stateC1 : LogState :=
  { initialLogState with
    categoryFilter := some ["SYSTEM", "DATABASE"],
    excludedCategories := ["API"] }

/-- A recording state with redaction enabled and the adaptive controller
off. -/
def stateC6 : LogState :=
  { initialLogState with sessionRecording := true, redactEnabled := true }

/-- Three calls: an accepted INFO, a TRACE below the DEBUG minimum, and an
accepted ERROR carrying a secret. -/
def callsC6 : List CallInput :=
  [⟨0, 1, .INFO, "API", "a"⟩,
   ⟨0, 2, .TRACE, "API", "b"⟩,
   ⟨0, 3, .ERROR, "DATABASE", "password: hunter2"⟩]

/-- A pre-rotation directory layout: an oversized active file, backups at
`.1` and `.3`, a gap at `.2`. -/
def fsC8 : LogFS :=
  { active := some "AAAA",
    backup := fun k => if k = 1 then some "B1" else if k = 3 then some "B3" else none }

/-- A state in which the adaptive controller fires at instant 60: adjustment
enabled, session started at 0, 1000 records so far, threshold 100. -/
def stateC9 : LogState :=
  { initialLogState with
    autoAdjustLevel := true,
    sessionStart := some 0,
    lastAdjustTime := 0,
    logCount := [(.INFO, 1000)] }

/-! ## Basic order lemmas for severities -/

theorem LogLevel.le_rfl (a : LogLevel) : a ≤ a := Int.le_refl a.toInt

theorem LogLevel.le_trans {a b c : LogLevel} (h1 : a ≤ b) (h2 : b ≤ c) :
    a ≤ c := Int.le_trans h1 h2

theorem LogLevel.le_of_lt {a b : LogLevel} (h : a < b) : a ≤ b :=
  Int.le_of_lt h

theorem LogLevel.not_lt_iff {a b : LogLevel} : ¬(a < b) ↔ b ≤ a :=
  Int.not_lt

/-! ## Claim theorems -/

/-- Claim C2, counterexample: the claim says the console line goes to the
error stream exactly when severity ≥ ERROR (so WARN would go to the
standard stream), but `_output` routes a WARN record to the error stream
even though WARN is below ERROR. -/
theorem consoleRouting_claim_false_at_WARN :
    outputStream .WARN = .stderr ∧ ¬(LogLevel.ERROR ≤ LogLevel.WARN) := by
  exact ⟨rfl, by decide⟩

/-- Claim C2, amended: the console line is written to the error stream
exactly when the record's severity is greater than or equal to WARN (so
WARN goes to the error stream and NOTICE and below go to the standard
stream). -/
theorem consoleRouting_stderr_iff_warn (lvl : LogLevel) :
    outputStream lvl = .stderr ↔ LogLevel.WARN ≤ lvl := by
  by_cases h : LogLevel.WARN ≤ lvl <;> simp [outputStream, h]

/-- Claim C4: evaluating the code at the failing input. Under the default
configuration, `start_session_recording` acquires the process-wide
non-re-entrant lock and then logs its own informational notice; that nested
`_log` call passes the filter chain and blocks forever re-acquiring the
lock the thread already holds (`none` = the operation never returns). -/
theorem startSessionRecording_deadlocks :
    startSessionRecordingLocked initialLogState 0 0 = none := by
  decide

/-- Claim C7: evaluating the code at the failing input. With redaction
enabled and the built-in pattern list, redaction is not idempotent: on
`1234567890123456token: abc` the first pass substitutes the token match,
which exposes the 16-digit run to the credit-card pattern (the substitution
creates the missing trailing word boundary), so the second pass produces a
different string — the first pass also leaves the credit-card-like number
in its output. -/
theorem redaction_not_idempotent_eval :
    redactSensitiveData true "1234567890123456token: abc" =
      "1234567890123456[REDACTED]" ∧
    redactSensitiveData true (redactSensitiveData true "1234567890123456token: abc") =
      "[REDACTED][REDACTED]" ∧
    redactSensitiveData true (redactSensitiveData true "1234567890123456token: abc") ≠
      redactSensitiveData true "1234567890123456token: abc" := by
  refine ⟨by decide, by decide, by decide⟩

/-- Claim C10: `configure` overwrites every setting it governs — the
post-call values of the governed settings do not depend on the prior state
at all, and a call passing only defaults resets the minimum severity to
DEBUG, clears the log file (disabling file output), clears both category
lists, and restores the remaining governed settings to their declared
defaults. -/
theorem configure_overwrites_all :
    (∀ (s₁ s₂ : LogState) (a : ConfigureArgs),
       configuredView (configure s₁ a) = configuredView (configure s₂ a)) ∧
    (∀ s : LogState,
       (configure s {}).minLevel = .DEBUG ∧
       (configure s {}).logFile = none ∧
       (configure s {}).categoryFilter = none ∧
       (configure s {}).excludedCategories = [] ∧
       (configure s {}).formatType = .STANDARD ∧
       (configure s {}).showMetadata = false ∧
       (configure s {}).showThreadId = false ∧
       (configure s {}).bufferEnabled = false ∧
       (configure s {}).redactEnabled = false ∧
       (configure s {}).remoteEnabled = false ∧
       (configure s {}).samplingRate = 1) := by
  constructor
  · intro s₁ s₂ a
    rfl
  · intro s
    refine ⟨rfl, rfl, rfl, rfl, rfl, rfl, rfl, rfl, rfl, rfl, ?_⟩
    norm_num [configure]

theorem shouldLogCategory_iff (filter : Option (List String))
    (excluded : List String) (cat : String) (h : filter ≠ some []) :
    shouldLogCategory filter excluded cat = true ↔
      (cat ∉ excluded ∧ ∀ l, filter = some l → cat ∈ l) := by
  by_cases hx : cat ∈ excluded
  · have hxb : excluded.contains cat = true := List.elem_iff.mpr hx
    simp [shouldLogCategory, hxb, hx]
  · have hxb : excluded.contains cat = false := by
      cases hcb : excluded.contains cat
      · rfl
      · exact absurd (List.elem_iff.mp hcb) hx
    cases filter with
    | none => simp [shouldLogCategory, hxb, hx]
    | some l =>
      have hl : l ≠ [] := fun he => h (by rw [he])
      have hle : l.isEmpty = false := by
        cases l with
        | nil => exact absurd rfl hl
        | cons a t => rfl
      by_cases hcl : cat ∈ l
      · have hclb : l.contains cat = true := List.elem_iff.mpr hcl
        simp [shouldLogCategory, hxb, hx, hle, hclb, hcl]
      · have hclb : l.contains cat = false := by
          cases hcb : l.contains cat
          · rfl
          · exact absurd (List.elem_iff.mp hcb) hcl
        simp [shouldLogCategory, hxb, hx, hle, hclb, hcl]

theorem logCallCore_fst (w : LogState → LogState) (s : LogState)
    (draw now : ℚ) (lvl : LogLevel) (cat msg : String) :
    (logCallCore w s draw now lvl cat msg).1 =
      (s.enabled && !decide (lvl < s.minLevel) &&
        shouldLogCategory s.categoryFilter s.excludedCategories cat &&
        shouldSample s.samplingRate draw &&
        (checkRateLimit s.rateLimitEnabled s.maxLogsPerMinute s.rateLimits
          cat now).1) := by
  by_cases h1 : s.enabled <;>
    by_cases h2 : lvl < s.minLevel <;>
    by_cases h3 : shouldLogCategory s.categoryFilter s.excludedCategories cat <;>
    by_cases h4 : shouldSample s.samplingRate draw <;>
    cases h5 : (checkRateLimit s.rateLimitEnabled s.maxLogsPerMinute
      s.rateLimits cat now).1 <;>
    simp [logCallCore, h1, h2, h3, h4, h5]

theorem logCall_fst (s : LogState) (draw now : ℚ) (lvl : LogLevel)
    (cat msg : String) :
    (logCall s draw now lvl cat msg).1 =
      (s.enabled && !decide (lvl < s.minLevel) &&
        shouldLogCategory s.categoryFilter s.excludedCategories cat &&
        shouldSample s.samplingRate draw &&
        (checkRateLimit s.rateLimitEnabled s.maxLogsPerMinute s.rateLimits
          cat now).1) := by
  rw [show logCall s draw now lvl cat msg =
    logCallCore (fun st => (logCallF 1 st draw now .WARN "SYSTEM" autoAdjustMsg).2)
      s draw now lvl cat msg from rfl]
  exact logCallCore_fst _ s draw now lvl cat msg

/-- Claim C1: with the default probabilistic/rate-limiting configuration
(sampling rate 1, rate limiting disabled) and a well-formed allow list
(`configure` never installs `some []`), a log call emits a record iff the
enabled flag is set, the severity reaches the configured minimum, the
category is not denied, and — when an allow list is configured — the
category is in it. -/
theorem filterChain_emits_iff (s : LogState) (draw now : ℚ)
    (lvl : LogLevel) (cat msg : String)
    (hs : s.samplingRate = 1) (hr : s.rateLimitEnabled = false)
    (hf : s.categoryFilter ≠ some []) :
    (logCall s draw now lvl cat msg).1 = true ↔
      (s.enabled = true ∧ s.minLevel ≤ lvl ∧
        cat ∉ s.excludedCategories ∧
        ∀ l, s.categoryFilter = some l → cat ∈ l) := by
  have hsample : shouldSample s.samplingRate draw = true := by
    simp [shouldSample, hs]
  have hrl : checkRateLimit s.rateLimitEnabled s.maxLogsPerMinute
      s.rateLimits cat now = (true, s.rateLimits) := by
    simp [checkRateLimit, hr]
  rw [logCall_fst, hsample, hrl]
  simp only [Bool.and_true, Bool.and_eq_true, decide_eq_true_eq,
    Bool.not_eq_true', decide_eq_false_iff_not, LogLevel.not_lt_iff,
    shouldLogCategory_iff s.categoryFilter s.excludedCategories cat hf]
  tauto

theorem autoAdjustStep_cases (s : LogState) (now : ℚ) :
    (autoAdjustStep s now).1 = s ∨
    (autoAdjustStep s now).1 = { s with lastAdjustTime := now } ∨
    ((autoAdjustStep s now).1 =
        { s with lastAdjustTime := now, minLevel := LogLevel.WARN } ∧
      s.minLevel < LogLevel.WARN) := by
  by_cases h1 : s.autoAdjustLevel
  · cases hss : s.sessionStart with
    | none => simp [autoAdjustStep, h1, hss]
    | some start =>
      by_cases h2 : now - s.lastAdjustTime < 60
      · simp [autoAdjustStep, h1, hss, h2]
      · by_cases h3 : 0 < (now - start) / 60
        · by_cases h4 : (s.noiseThreshold : ℚ) <
              (totalLogCount s : ℚ) / ((now - start) / 60)
          · by_cases h5 : s.minLevel < LogLevel.WARN
            · refine Or.inr (Or.inr ⟨?_, h5⟩)
              simp [autoAdjustStep, h1, hss, h2, h3, h4, h5]
            · refine Or.inr (Or.inl ?_)
              simp [autoAdjustStep, h1, hss, h2, h3, h4, h5]
          · refine Or.inr (Or.inl ?_)
            simp [autoAdjustStep, h1, hss, h2, h3, h4]
        · refine Or.inr (Or.inl ?_)
          simp [autoAdjustStep, h1, hss, h2, h3]
  · have h1' : s.autoAdjustLevel = false := by simpa using h1
    simp [autoAdjustStep, h1']

theorem autoAdjustStep_minLevel_mono (s : LogState) (now : ℚ) :
    s.minLevel ≤ (autoAdjustStep s now).1.minLevel := by
  rcases autoAdjustStep_cases s now with h | h | ⟨h, hlt⟩
  · rw [h]
    exact LogLevel.le_rfl _
  · rw [h]
    exact LogLevel.le_rfl _
  · rw [h]
    exact LogLevel.le_of_lt hlt

theorem logAcceptedBody_minLevel (s : LogState) (now : ℚ) (lvl : LogLevel)
    (cat msg : String) :
    (logAcceptedBody s now lvl cat msg).minLevel = s.minLevel := by
  unfold logAcceptedBody
  dsimp only
  split <;> rfl

theorem logCallF_minLevel_mono (fuel : Nat) (s : LogState) (draw now : ℚ)
    (lvl : LogLevel) (cat msg : String) :
    s.minLevel ≤ (logCallF fuel s draw now lvl cat msg).2.minLevel := by
  induction fuel generalizing s lvl cat msg with
  | zero =>
    unfold logCallF logCallCore
    dsimp only
    split
    · exact LogLevel.le_rfl _
    · split
      · exact LogLevel.le_rfl _
      · split
        · exact LogLevel.le_rfl _
        · split
          · exact LogLevel.le_rfl _
          · rw [logAcceptedBody_minLevel]
            split
            · exact autoAdjustStep_minLevel_mono _ now
            · exact autoAdjustStep_minLevel_mono _ now
  | succ fuel ih =>
    unfold logCallF logCallCore
    dsimp only
    split
    · exact LogLevel.le_rfl _
    · split
      · exact LogLevel.le_rfl _
      · split
        · exact LogLevel.le_rfl _
        · split
          · exact LogLevel.le_rfl _
          · rw [logAcceptedBody_minLevel]
            split
            · refine LogLevel.le_trans ?_ (ih _ _ _ _)
              exact autoAdjustStep_minLevel_mono _ now
            · exact autoAdjustStep_minLevel_mono _ now

theorem runCalls_minLevel_mono (cs : List CallInput) (s : LogState) :
    s.minLevel ≤ (runCalls s cs).minLevel := by
  induction cs generalizing s with
  | nil => exact LogLevel.le_rfl _
  | cons c cs ih =>
    exact LogLevel.le_trans
      (logCallF_minLevel_mono 2 s c.draw c.now c.level c.category c.message)
      (ih _)

/-- Claim C9: the adaptive controller is a one-directional ratchet. Each
invocation of the adjustment step leaves the minimum severity unchanged or
raises it, and so does every log call and every sequence of log calls; and
when an invocation does change it, the change is a raise to WARN that can
only happen with adjustment enabled, a session started, at least 60 seconds
since the last adjustment check, a positive elapsed duration whose
records-per-minute rate exceeds the noise threshold, and a prior minimum
severity below WARN. -/
theorem adaptive_ratchet (s : LogState) (now : ℚ) :
    (s.minLevel ≤ (autoAdjustStep s now).1.minLevel) ∧
    ((autoAdjustStep s now).1.minLevel ≠ s.minLevel →
      s.autoAdjustLevel = true ∧
      (∃ start, s.sessionStart = some start ∧
        60 ≤ now - s.lastAdjustTime ∧
        0 < (now - start) / 60 ∧
        (s.noiseThreshold : ℚ) < (totalLogCount s : ℚ) / ((now - start) / 60) ∧
        s.minLevel < LogLevel.WARN ∧
        (autoAdjustStep s now).1.minLevel = LogLevel.WARN)) ∧
    (∀ cs : List CallInput, s.minLevel ≤ (runCalls s cs).minLevel) := by
  refine ⟨autoAdjustStep_minLevel_mono s now, ?_, fun cs => runCalls_minLevel_mono cs s⟩
  intro hne
  by_cases h1 : s.autoAdjustLevel
  · refine ⟨h1, ?_⟩
    cases hss : s.sessionStart with
    | none => simp [autoAdjustStep, h1, hss] at hne
    | some start =>
      refine ⟨start, rfl, ?_⟩
      by_cases h2 : now - s.lastAdjustTime < 60
      · simp [autoAdjustStep, h1, hss, h2] at hne
      · refine ⟨le_of_not_lt h2, ?_⟩
        by_cases h3 : 0 < (now - start) / 60
        · by_cases h4 : (s.noiseThreshold : ℚ) <
              (totalLogCount s : ℚ) / ((now - start) / 60)
          · by_cases h5 : s.minLevel < LogLevel.WARN
            · refine ⟨h3, h4, h5, ?_⟩
              simp [autoAdjustStep, h1, hss, h2, h3, h4, h5]
            · exact absurd (by simp [autoAdjustStep, h1, hss, h2, h3, h4, h5]) hne
          · exact absurd (by simp [autoAdjustStep, h1, hss, h2, h3, h4]) hne
        · exact absurd (by simp [autoAdjustStep, h1, hss, h2, h3]) hne
  · have h1' : s.autoAdjustLevel = false := by simpa using h1
    simp [autoAdjustStep, h1'] at hne

/-- Claim C9 witness: the theorem applied at the concrete firing state
`stateC9` and instant 60, with the implication's antecedent discharged
there (the step does change the minimum severity, from DEBUG to WARN). -/
theorem adaptive_ratchet_witness :
    stateC9.autoAdjustLevel = true ∧
    (∃ start, stateC9.sessionStart = some start ∧
      60 ≤ (60 : ℚ) - stateC9.lastAdjustTime ∧
      0 < ((60 : ℚ) - start) / 60 ∧
      (stateC9.noiseThreshold : ℚ) <
        (totalLogCount stateC9 : ℚ) / (((60 : ℚ) - start) / 60) ∧
      stateC9.minLevel < LogLevel.WARN ∧
      (autoAdjustStep stateC9 60).1.minLevel = LogLevel.WARN) :=
  (adaptive_ratchet stateC9 60).2.1 (by
    have hfire : (autoAdjustStep stateC9 60).1.minLevel = LogLevel.WARN := by
      have h2 : ¬((60 : ℚ) - 0 < 60) := by norm_num
      have h3 : (0 : ℚ) < ((60 : ℚ) - 0) / 60 := by norm_num
      have h4 : ((100 : Nat) : ℚ) < ((1000 : Nat) : ℚ) / (((60 : ℚ) - 0) / 60) := by
        norm_num
      have h5 : LogLevel.DEBUG < LogLevel.WARN := by decide
      have h6 : (100 : ℚ) < 1000 := by norm_num
      simp [autoAdjustStep, stateC9, initialLogState, totalLogCount, h2, h3, h4,
        h5, h6]
    rw [hfire]
    decide)

theorem runRateLimit_invariant (N : Nat) (cat : String) (ws : ℚ)
    (ts : List ℚ) :
    ∀ c : Nat, (∀ t ∈ ts, ws ≤ t ∧ t - ws ≤ 60) →
      (runRateLimit true N cat [("rate_limit_" ++ cat, (c, ws))] ts).1 =
        (List.range ts.length).map (fun i => decide (c + i < N)) := by
  induction ts with
  | nil => intro c _; rfl
  | cons t ts ih =>
    intro c h
    have hmem := h t (List.mem_cons_self t ts)
    have hwin : ¬(60 < t - ws) := not_lt.mpr hmem.2
    have htail : ∀ u ∈ ts, ws ≤ u ∧ u - ws ≤ 60 :=
      fun u hu => h u (List.mem_cons_of_mem t hu)
    simp only [List.length_cons]
    rw [List.range_succ_eq_map, List.map_cons, List.map_map]
    by_cases hcN : N ≤ c
    · have hstep : checkRateLimit true N [("rate_limit_" ++ cat, (c, ws))] cat t
          = (false, [("rate_limit_" ++ cat, (c, ws))]) := by
        simp [checkRateLimit, List.lookup, hwin, hcN]
      have hhead : decide (c + 0 < N) = false := by
        simp
        omega
      unfold runRateLimit
      rw [hstep]
      simp only [List.cons.injEq]
      refine ⟨by rw [hhead], ?_⟩
      rw [ih c htail]
      refine List.map_congr_left ?_
      intro i _
      simp only [Function.comp]
      have : ¬(c + i < N) := by omega
      have h2 : ¬(c + i.succ < N) := by omega
      simp [this, h2]
    · have hstep : checkRateLimit true N [("rate_limit_" ++ cat, (c, ws))] cat t
          = (true, [("rate_limit_" ++ cat, (c + 1, ws))]) := by
        simp [checkRateLimit, List.lookup, hwin, hcN, alUpdate]
      have hhead : decide (c + 0 < N) = true := by
        simp
        omega
      unfold runRateLimit
      rw [hstep]
      simp only [List.cons.injEq]
      refine ⟨by rw [hhead], ?_⟩
      rw [ih (c + 1) htail]
      refine List.map_congr_left ?_
      intro i _
      simp only [Function.comp, Nat.succ_eq_add_one]
      have he : c + 1 + i = c + (i + 1) := by omega
      rw [he]

/-- Claim C5: with rate limiting enabled and a per-minute ceiling `N ≥ 1`,
for a run of calls in one category whose first call opens the window at
`t0` and whose later calls all fall within 60 seconds of `t0`, the first
call and exactly the calls up to the `N`-th are accepted (the decision for
the `(i+2)`-th call is `i + 1 < N`, so the `(N+1)`-th and all later calls
are suppressed); and from any in-window count, a call arriving strictly
more than 60 seconds after the window start is accepted and restarts the
window with count 1 at its own instant. -/
theorem rateLimit_window (N : Nat) (cat : String) (t0 : ℚ) (ts : List ℚ)
    (_hN : 1 ≤ N) (hts : ∀ t ∈ ts, t0 ≤ t ∧ t - t0 ≤ 60) :
    ((runRateLimit true N cat [] (t0 :: ts)).1 =
      true :: (List.range ts.length).map (fun i => decide (i + 1 < N))) ∧
    (∀ (c : Nat) (ws t : ℚ), 60 < t - ws →
      checkRateLimit true N [("rate_limit_" ++ cat, (c, ws))] cat t =
        (true, [("rate_limit_" ++ cat, (1, t))])) := by
  constructor
  · have hfirst : checkRateLimit true N [] cat t0
        = (true, [("rate_limit_" ++ cat, (1, t0))]) := by
      simp [checkRateLimit, List.lookup, alUpdate]
    unfold runRateLimit
    rw [hfirst]
    simp only [List.cons.injEq, true_and]
    rw [runRateLimit_invariant N cat t0 ts 1 hts]
    refine List.map_congr_left ?_
    intro i _
    rw [Nat.add_comm 1 i]
  · intro c ws t h
    simp [checkRateLimit, List.lookup, h, alUpdate]

/-- Claim C5 witness: the theorem applied with ceiling 2 to concrete calls
at instants 0, 10, 20, 30 (so the decisions are accept, accept, suppress,
suppress), and a window-rollover call 61 seconds after a window start. -/
theorem rateLimit_window_witness :
    ((1 : Nat) ≤ 2 ∧ ∀ t ∈ [(10 : ℚ), 20, 30], (0 : ℚ) ≤ t ∧ t - 0 ≤ 60) ∧
    (((runRateLimit true 2 "API" [] [0, 10, 20, 30]).1 =
      true :: (List.range 3).map (fun i => decide (i + 1 < 2))) ∧
    (∀ (c : Nat) (ws t : ℚ), 60 < t - ws →
      checkRateLimit true 2 [("rate_limit_API", (c, ws))] "API" t =
        (true, [("rate_limit_API", (1, t))]))) := by
  constructor
  · exact ⟨by norm_num, by intro t ht; fin_cases ht <;> norm_num⟩
  · exact rateLimit_window 2 "API" 0 [10, 20, 30] (by norm_num)
      (by intro t ht; fin_cases ht <;> norm_num)

theorem autoAdjustStep_preserves (s : LogState) (now : ℚ) :
    (autoAdjustStep s now).1.sessionRecording = s.sessionRecording ∧
    (autoAdjustStep s now).1.autoAdjustLevel = s.autoAdjustLevel ∧
    (autoAdjustStep s now).1.redactEnabled = s.redactEnabled := by
  rcases autoAdjustStep_cases s now with h | h | ⟨h, _⟩ <;> rw [h] <;>
    exact ⟨rfl, rfl, rfl⟩

theorem logAcceptedBody_preserves (s : LogState) (now : ℚ) (lvl : LogLevel)
    (cat msg : String) :
    (logAcceptedBody s now lvl cat msg).sessionRecording = s.sessionRecording ∧
    (logAcceptedBody s now lvl cat msg).autoAdjustLevel = s.autoAdjustLevel ∧
    (logAcceptedBody s now lvl cat msg).redactEnabled = s.redactEnabled := by
  unfold logAcceptedBody
  dsimp only
  split <;> exact ⟨rfl, rfl, rfl⟩

theorem logCallF_preserves (fuel : Nat) (s : LogState) (draw now : ℚ)
    (lvl : LogLevel) (cat msg : String) :
    (logCallF fuel s draw now lvl cat msg).2.sessionRecording = s.sessionRecording ∧
    (logCallF fuel s draw now lvl cat msg).2.autoAdjustLevel = s.autoAdjustLevel ∧
    (logCallF fuel s draw now lvl cat msg).2.redactEnabled = s.redactEnabled := by
  induction fuel generalizing s lvl cat msg with
  | zero =>
    unfold logCallF logCallCore
    dsimp only
    split
    · exact ⟨rfl, rfl, rfl⟩
    · split
      · exact ⟨rfl, rfl, rfl⟩
      · split
        · exact ⟨rfl, rfl, rfl⟩
        · split
          · exact ⟨rfl, rfl, rfl⟩
          · split
            · exact ⟨(logAcceptedBody_preserves _ now lvl cat msg).1.trans
                  (autoAdjustStep_preserves _ now).1,
                (logAcceptedBody_preserves _ now lvl cat msg).2.1.trans
                  (autoAdjustStep_preserves _ now).2.1,
                (logAcceptedBody_preserves _ now lvl cat msg).2.2.trans
                  (autoAdjustStep_preserves _ now).2.2⟩
            · exact ⟨(logAcceptedBody_preserves _ now lvl cat msg).1.trans
                  (autoAdjustStep_preserves _ now).1,
                (logAcceptedBody_preserves _ now lvl cat msg).2.1.trans
                  (autoAdjustStep_preserves _ now).2.1,
                (logAcceptedBody_preserves _ now lvl cat msg).2.2.trans
                  (autoAdjustStep_preserves _ now).2.2⟩
  | succ fuel ih =>
    unfold logCallF logCallCore
    dsimp only
    split
    · exact ⟨rfl, rfl, rfl⟩
    · split
      · exact ⟨rfl, rfl, rfl⟩
      · split
        · exact ⟨rfl, rfl, rfl⟩
        · split
          · exact ⟨rfl, rfl, rfl⟩
          · split
            · exact ⟨(logAcceptedBody_preserves _ now lvl cat msg).1.trans
                  ((ih _ _ _ _).1.trans (autoAdjustStep_preserves _ now).1),
                (logAcceptedBody_preserves _ now lvl cat msg).2.1.trans
                  ((ih _ _ _ _).2.1.trans (autoAdjustStep_preserves _ now).2.1),
                (logAcceptedBody_preserves _ now lvl cat msg).2.2.trans
                  ((ih _ _ _ _).2.2.trans (autoAdjustStep_preserves _ now).2.2)⟩
            · exact ⟨(logAcceptedBody_preserves _ now lvl cat msg).1.trans
                  (autoAdjustStep_preserves _ now).1,
                (logAcceptedBody_preserves _ now lvl cat msg).2.1.trans
                  (autoAdjustStep_preserves _ now).2.1,
                (logAcceptedBody_preserves _ now lvl cat msg).2.2.trans
                  (autoAdjustStep_preserves _ now).2.2⟩

theorem runCalls_preserves (cs : List CallInput) (s : LogState) :
    (runCalls s cs).sessionRecording = s.sessionRecording ∧
    (runCalls s cs).autoAdjustLevel = s.autoAdjustLevel := by
  induction cs generalizing s with
  | nil => exact ⟨rfl, rfl⟩
  | cons c cs ih =>
    refine ⟨(ih _).1.trans ?_, (ih _).2.trans ?_⟩
    · exact (logCallF_preserves 2 s c.draw c.now c.level c.category c.message).1
    · exact (logCallF_preserves 2 s c.draw c.now c.level c.category c.message).2.1

theorem logCallCore_session (w : LogState → LogState) (s : LogState)
    (draw now : ℚ) (lvl : LogLevel) (cat msg : String)
    (h : s.autoAdjustLevel = false) :
    (logCallCore w s draw now lvl cat msg).2.sessionLogs =
      s.sessionLogs ++
        (if s.sessionRecording && (logCallCore w s draw now lvl cat msg).1 then
          [⟨now, lvl.levelName, cat, redactSensitiveData s.redactEnabled msg⟩]
         else []) := by
  have hadj : autoAdjustStep { s with
      rateLimits := (checkRateLimit s.rateLimitEnabled
        s.maxLogsPerMinute s.rateLimits cat now).2 } now =
      ({ s with rateLimits := (checkRateLimit s.rateLimitEnabled
        s.maxLogsPerMinute s.rateLimits cat now).2 }, false) := by
    simp [autoAdjustStep, h]
  unfold logCallCore
  dsimp only
  split
  · simp
  · split
    · simp
    · split
      · simp
      · split
        · simp
        · rw [hadj]
          dsimp only
          simp only [Bool.and_true]
          unfold logAcceptedBody
          dsimp only
          by_cases hrec : s.sessionRecording
          · simp [hrec]
          · have hrec' : s.sessionRecording = false := by simpa using hrec
            simp [hrec']

theorem logCallI_session (s : LogState) (c : CallInput)
    (h : s.autoAdjustLevel = false) :
    (logCallI s c).2.sessionLogs =
      s.sessionLogs ++
        (if s.sessionRecording && (logCallI s c).1 then
          [⟨c.now, c.level.levelName, c.category,
            redactSensitiveData s.redactEnabled c.message⟩]
         else []) :=
  logCallCore_session _ s c.draw c.now c.level c.category c.message h

theorem capturedRecords_nil (s : LogState) : capturedRecords s [] = [] := rfl

theorem capturedRecords_cons (s : LogState) (c : CallInput)
    (cs : List CallInput) :
    capturedRecords s (c :: cs) =
      (if s.sessionRecording && (logCallI s c).1 then
        [⟨c.now, c.level.levelName, c.category,
          redactSensitiveData s.redactEnabled c.message⟩]
       else []) ++ capturedRecords (logCallI s c).2 cs := rfl

theorem runCalls_sessionLogs (cs : List CallInput) (s : LogState)
    (h : s.autoAdjustLevel = false) :
    (runCalls s cs).sessionLogs = s.sessionLogs ++ capturedRecords s cs := by
  induction cs generalizing s with
  | nil => simp [runCalls, capturedRecords]
  | cons c cs ih =>
    have h' : (logCallI s c).2.autoAdjustLevel = false :=
      (logCallF_preserves 2 s c.draw c.now c.level c.category c.message).2.1.trans h
    show (runCalls (logCallI s c).2 cs).sessionLogs = _
    rw [capturedRecords_cons, ih _ h', logCallI_session s c h,
      List.append_assoc]

/-- Claim C6: while session recording is on, exactly the records accepted
by the filter chain are appended to the session buffer, in emission order,
each carrying the already-redacted message (`capturedRecords`); `start`
clears any previously captured buffer before recording (its own notice is
the first candidate record); `stop` flips recording off and returns exactly
the accumulated buffer (its own notice, logged after the flag flip, is not
captured). Stated with the adaptive controller off (its default), so that
no controller notice interleaves. -/
theorem sessionRecording_captures (s : LogState) (draw now draw2 now2 : ℚ)
    (cs : List CallInput) (h : s.autoAdjustLevel = false) :
    ((runCalls s cs).sessionLogs = s.sessionLogs ++ capturedRecords s cs) ∧
    ((startSessionRecordingRun s draw now).sessionLogs =
      capturedRecords
        { s with sessionRecording := true, sessionLogs := [],
                 sessionStart := some now }
        [⟨draw, now, .INFO, "SYSTEM", sessionStartMsg⟩]) ∧
    (s.sessionRecording = true →
      ((stopSessionRecordingRun s draw now).1 = s.sessionLogs ∧
       (stopSessionRecordingRun s draw now).2.sessionRecording = false ∧
       (stopSessionRecordingRun s draw now).2.sessionLogs = s.sessionLogs)) ∧
    ((stopSessionRecordingRun
        (runCalls (startSessionRecordingRun s draw now) cs) draw2 now2).1 =
      (startSessionRecordingRun s draw now).sessionLogs ++
        capturedRecords (startSessionRecordingRun s draw now) cs) := by
  have hstart : ∀ d n : ℚ, (startSessionRecordingRun s d n).sessionRecording = true ∧
      (startSessionRecordingRun s d n).autoAdjustLevel = false := by
    intro d n
    unfold startSessionRecordingRun
    refine ⟨(logCallF_preserves 2 _ d n .INFO "SYSTEM" sessionStartMsg).1, ?_⟩
    exact (logCallF_preserves 2 _ d n .INFO "SYSTEM" sessionStartMsg).2.1.trans h
  have hstop : ∀ (s' : LogState) (d n : ℚ), s'.sessionRecording = true →
      s'.autoAdjustLevel = false →
      (stopSessionRecordingRun s' d n).1 = s'.sessionLogs ∧
      (stopSessionRecordingRun s' d n).2.sessionRecording = false ∧
      (stopSessionRecordingRun s' d n).2.sessionLogs = s'.sessionLogs := by
    intro s' d n hrec hadj
    unfold stopSessionRecordingRun
    rw [if_pos hrec]
    dsimp only
    have hd := logCallI_session { s' with sessionRecording := false }
      ⟨d, n, .INFO, "SYSTEM", sessionStopMsg⟩ hadj
    unfold logCallI at hd
    dsimp only at hd
    rw [hd]
    exact ⟨by simp, (logCallF_preserves 2 _ d n .INFO "SYSTEM" sessionStopMsg).1,
      by simp⟩
  refine ⟨runCalls_sessionLogs cs s h, ?_, fun hrec => hstop s draw now hrec h, ?_⟩
  · unfold startSessionRecordingRun
    have hd := logCallI_session
      { s with sessionRecording := true, sessionLogs := [],
               sessionStart := some now }
      ⟨draw, now, .INFO, "SYSTEM", sessionStartMsg⟩ h
    rw [capturedRecords_cons, capturedRecords_nil, List.append_nil]
    unfold logCallI at hd
    dsimp only at hd
    rw [hd]
    simp [logCallI]
  · have h1 := hstart draw now
    have h2 := runCalls_preserves cs (startSessionRecordingRun s draw now)
    exact ((hstop _ draw2 now2 (h2.1.trans h1.1) (h2.2.trans h1.2)).1).trans
      (runCalls_sessionLogs cs _ h1.2)

/-- Claim C6 witness: the theorem applied to the concrete recording state
`stateC6` and the calls `callsC6` (hypothesis discharged by `rfl`), plus a
concrete evaluation: the captured sequence is exactly the two accepted
records, in order, the second with its secret already redacted. -/
theorem sessionRecording_captures_witness :
    (stateC6.autoAdjustLevel = false) ∧
    (((runCalls stateC6 callsC6).sessionLogs =
        stateC6.sessionLogs ++ capturedRecords stateC6 callsC6) ∧
      ((startSessionRecordingRun stateC6 0 0).sessionLogs =
        capturedRecords
          { stateC6 with sessionRecording := true, sessionLogs := [],
                         sessionStart := some 0 }
          [⟨0, 0, .INFO, "SYSTEM", sessionStartMsg⟩]) ∧
      (stateC6.sessionRecording = true →
        ((stopSessionRecordingRun stateC6 0 0).1 = stateC6.sessionLogs ∧
         (stopSessionRecordingRun stateC6 0 0).2.sessionRecording = false ∧
         (stopSessionRecordingRun stateC6 0 0).2.sessionLogs =
           stateC6.sessionLogs)) ∧
      ((stopSessionRecordingRun
          (runCalls (startSessionRecordingRun stateC6 0 0) callsC6) 0 9).1 =
        (startSessionRecordingRun stateC6 0 0).sessionLogs ++
          capturedRecords (startSessionRecordingRun stateC6 0 0) callsC6)) ∧
    (capturedRecords stateC6 callsC6 =
      [⟨1, "INFO", "API", "a"⟩, ⟨3, "ERROR", "DATABASE", "[REDACTED]"⟩]) :=
  ⟨rfl, sessionRecording_captures stateC6 0 0 0 9 callsC6 rfl, by decide⟩

theorem renameStep_src (b : Nat → Option String) (i : Nat) :
    renameStep b i i = none := by
  unfold renameStep
  cases hb : b i with
  | some c =>
    have h1 : i ≠ i + 1 := by omega
    simp [h1]
  | none => exact hb

theorem renameStep_dst (b : Nat → Option String) (i : Nat) :
    renameStep b i (i + 1) = (if (b i).isSome then b i else b (i + 1)) := by
  unfold renameStep
  cases hb : b i with
  | some c => simp
  | none => simp

theorem renameStep_other (b : Nat → Option String) (i k : Nat)
    (h1 : k ≠ i) (h2 : k ≠ i + 1) : renameStep b i k = b k := by
  unfold renameStep
  cases hb : b i with
  | some c => simp [h1, h2]
  | none => rfl

theorem shiftFrom_spec (i : Nat) :
    ∀ b : Nat → Option String, b (i + 1) = none → ∀ k,
      shiftFrom b i k =
        if k = 0 then b 0
        else if k = 1 ∧ 1 ≤ i then none
        else if 2 ≤ k ∧ k ≤ i + 1 then b (k - 1)
        else b k := by
  induction i with
  | zero =>
    intro b _ k
    show b k = _
    by_cases hk : k = 0
    · subst hk
      simp
    · have h2 : ¬(k = 1 ∧ 1 ≤ 0) := by omega
      have h3 : ¬(2 ≤ k ∧ k ≤ 0 + 1) := by omega
      simp [hk, h2, h3]
  | succ i ih =>
    intro b htop k
    have hpre : (renameStep b (i + 1)) (i + 1) = none := renameStep_src b (i + 1)
    show shiftFrom (renameStep b (i + 1)) i k = _
    rw [ih (renameStep b (i + 1)) hpre k]
    by_cases hk0 : k = 0
    · subst hk0
      have e : renameStep b (i + 1) 0 = b 0 :=
        renameStep_other b (i + 1) 0 (by omega) (by omega)
      simp [e]
    · by_cases hk1 : k = 1
      · subst hk1
        by_cases hi : 1 ≤ i
        · have hi' : 1 ≤ i + 1 := by omega
          simp [hi, hi']
        · have hi0 : i = 0 := by omega
          subst hi0
          have e : renameStep b 1 1 = none := renameStep_src b 1
          simp [e]
      · by_cases hk2 : k ≤ i
        · have c2 : 2 ≤ k ∧ k ≤ i + 1 := by omega
          have c3 : 2 ≤ k ∧ k ≤ i + 1 + 1 := by omega
          have e : renameStep b (i + 1) (k - 1) = b (k - 1) :=
            renameStep_other b (i + 1) (k - 1) (by omega) (by omega)
          simp [hk0, hk1, c2, c3, e]
        · by_cases hk3 : k = i + 1
          · subst hk3
            have c2 : 2 ≤ i + 1 ∧ i + 1 ≤ i + 1 := by omega
            have c3 : 2 ≤ i + 1 ∧ i + 1 ≤ i + 1 + 1 := by omega
            have harr : i + 1 - 1 = i := by omega
            have e : renameStep b (i + 1) i = b i :=
              renameStep_other b (i + 1) i (by omega) (by omega)
            simp [hk1, c2, c3, harr, e]
          · by_cases hk4 : k = i + 2
            · subst hk4
              have c1 : ¬(2 ≤ i + 2 ∧ i + 2 ≤ i + 1) := by omega
              have c3 : 2 ≤ i + 2 ∧ i + 2 ≤ i + 1 + 1 := by omega
              have harr : i + 2 - 1 = i + 1 := by omega
              have e : renameStep b (i + 1) (i + 2) = b (i + 1) := by
                rw [show i + 2 = (i + 1) + 1 from rfl, renameStep_dst b (i + 1)]
                cases hbb : b (i + 1) with
                | some c => simp
                | none =>
                  simp only [hbb, Option.isSome_none, Bool.false_eq_true, if_false]
                  exact htop
              simp [hk1, c1, c3, e, harr]
            · have c1 : ¬(2 ≤ k ∧ k ≤ i + 1) := by omega
              have c2 : ¬(2 ≤ k ∧ k ≤ i + 1 + 1) := by omega
              have e : renameStep b (i + 1) k = b k :=
                renameStep_other b (i + 1) k (by omega) (by omega)
              simp [hk0, hk1, c1, c2, e]

/-- Claim C8: with a backup count `N ≥ 1`, a size ceiling, and an active
file whose size strictly exceeds it, the next `_write_to_file` first
rotates and then writes: the content previously at `.N` is discarded (every
slot `.k+1` with `1 ≤ k ≤ N-1` now holds exactly the content previously at
`.k`, processed oldest first by the shift loop), the previously active
content is now at `.1`, suffixes beyond the backup count are untouched, and
the write lands in a fresh active file (after the rotation notice, when one
is written). -/
theorem rotation_layout (maxM N : Nat) (noticeWrite data content : String)
    (fs : LogFS) (hN : 1 ≤ N) (hact : fs.active = some content)
    (hm : maxM ≠ 0) (hsz : maxM < content.length) :
    ((writeToFileFS (some maxM) N noticeWrite fs data).backup 1 =
      some content) ∧
    (∀ k, 1 ≤ k → k ≤ N - 1 →
      (writeToFileFS (some maxM) N noticeWrite fs data).backup (k + 1) =
        fs.backup k) ∧
    (∀ k, N < k →
      (writeToFileFS (some maxM) N noticeWrite fs data).backup k =
        fs.backup k) ∧
    ((writeToFileFS (some maxM) N noticeWrite fs data).active =
      some (noticeWrite ++ data)) := by
  have hNe : ¬(N = 0) := by omega
  have hrw : writeToFileFS (some maxM) N noticeWrite fs data =
      appendActive (appendActive (rotateLogsFS N fs) noticeWrite) data := by
    unfold writeToFileFS
    rw [hact]
    have hbeq : (maxM == 0) = false := by
      simp [hm]
    simp [hbeq, hsz]
  have hb1 : (fun k => if k = N then none else fs.backup k) ((N - 1) + 1)
      = none := by
    have h : (N - 1) + 1 = N := by omega
    simp [h]
  rw [hrw]
  refine ⟨?_, ?_, ?_, ?_⟩
  · show (rotateLogsFS N fs).backup 1 = some content
    unfold rotateLogsFS
    rw [if_neg hNe]
    dsimp only
    rw [if_pos rfl]
    exact hact
  · intro k hk1 hk2
    show (rotateLogsFS N fs).backup (k + 1) = fs.backup k
    unfold rotateLogsFS
    rw [if_neg hNe]
    dsimp only
    have hne1 : ¬(k + 1 = 1) := by omega
    rw [if_neg hne1]
    rw [shiftFrom_spec (N - 1) _ hb1 (k + 1)]
    have c0 : ¬(k + 1 = 0) := by omega
    have c2 : 2 ≤ k + 1 ∧ k + 1 ≤ (N - 1) + 1 := by omega
    have harr : k + 1 - 1 = k := by omega
    have hkN : ¬(k = N) := by omega
    simp [c0, hne1, c2, harr, hkN]
  · intro k hk
    show (rotateLogsFS N fs).backup k = fs.backup k
    unfold rotateLogsFS
    rw [if_neg hNe]
    dsimp only
    have hne1 : ¬(k = 1) := by omega
    rw [if_neg hne1]
    rw [shiftFrom_spec (N - 1) _ hb1 k]
    have c0 : ¬(k = 0) := by omega
    have c2 : ¬(2 ≤ k ∧ k ≤ (N - 1) + 1) := by omega
    have hkN : ¬(k = N) := by omega
    simp [c0, hne1, c2, hkN]
  · show some _ = some (noticeWrite ++ data)
    unfold rotateLogsFS
    rw [if_neg hNe]
    rfl

/-- Claim C8 witness: the theorem applied to the concrete layout `fsC8`
(active `"AAAA"`, backups at `.1` and `.3`, gap at `.2`) with ceiling 2 and
backup count 3, plus concrete slot evaluations of the rotated directory. -/
theorem rotation_layout_witness :
    ((1 : Nat) ≤ 3 ∧ fsC8.active = some "AAAA" ∧ (2 : Nat) ≠ 0 ∧
      (2 : Nat) < "AAAA".length) ∧
    (((writeToFileFS (some 2) 3 "N" fsC8 "data").backup 1 = some "AAAA") ∧
     (∀ k, 1 ≤ k → k ≤ 3 - 1 →
       (writeToFileFS (some 2) 3 "N" fsC8 "data").backup (k + 1) =
         fsC8.backup k) ∧
     (∀ k, 3 < k →
       (writeToFileFS (some 2) 3 "N" fsC8 "data").backup k = fsC8.backup k) ∧
     ((writeToFileFS (some 2) 3 "N" fsC8 "data").active =
       some ("N" ++ "data"))) ∧
    ((writeToFileFS (some 2) 3 "N" fsC8 "data").backup 2 = some "B1" ∧
     (writeToFileFS (some 2) 3 "N" fsC8 "data").backup 3 = none ∧
     (writeToFileFS (some 2) 3 "N" fsC8 "data").active = some "Ndata") := by
  refine ⟨⟨by decide, rfl, by decide, by decide⟩, ?_, by decide, by decide, rfl⟩
  exact rotation_layout 2 3 "N" "data" "AAAA" fsC8 (by decide) rfl
    (by decide) (by decide)

theorem getMetadataE_ok (env : FaultEnv) :
    ∃ md, getMetadataE env = .ok md := by
  unfold getMetadataE tryE
  cases env.introspectRes with
  | error e => exact ⟨emptyMetadata, rfl⟩
  | ok md => exact ⟨md, rfl⟩

theorem writeToFileE_ok (env : FaultEnv) :
    ∃ r, writeToFileE env = .ok r := by
  unfold writeToFileE tryE rotateLogsE
  cases hu : env.unlinkRes <;> cases hr : env.renameRes <;>
    cases ho : env.openWriteRes <;> cases hn : env.rotationNeeded <;>
    simp [hu, hr, ho, hn, Except.bind] <;> exact ⟨_, rfl⟩

theorem triggerAlertsE_ok (hs : List (Except String Unit)) :
    ∃ r, triggerAlertsE hs = .ok r := by
  induction hs with
  | nil => exact ⟨[], rfl⟩
  | cons h t ih =>
    obtain ⟨r, hr⟩ := ih
    cases h with
    | error e =>
      exact ⟨["Alert-Handler-Fehler: " ++ e] ++ r, by
        simp [triggerAlertsE, tryE, Bind.bind, Except.bind, Pure.pure, Except.pure, hr]⟩
    | ok u =>
      exact ⟨[] ++ r, by simp [triggerAlertsE, tryE, Bind.bind, Except.bind, Pure.pure, Except.pure, hr]⟩

theorem sendToRemoteE_ok (env : FaultEnv) :
    ∃ u, sendToRemoteE env = .ok u := by
  unfold sendToRemoteE tryE
  cases env.remoteRes with
  | error e => exact ⟨(), rfl⟩
  | ok u => exact ⟨u, rfl⟩

/-- Claim C3: for every assignment of failures to the fallible primitives —
caller-introspection failure, file-write or rotation errors, any
combination of alert-handler exceptions, remote-send failure — the log
pipeline completes with an `.ok` result (it never propagates an exception
to the caller); internal failures surface only as error-stream reports. -/
theorem logPipeline_never_raises (env : FaultEnv) :
    ∃ reports, logPipelineE env = .ok reports := by
  obtain ⟨md, hmd⟩ := getMetadataE_ok env
  obtain ⟨r1, h1⟩ := writeToFileE_ok env
  obtain ⟨r2, h2⟩ := triggerAlertsE_ok env.alertHandlerRes
  obtain ⟨u, hu⟩ := sendToRemoteE_ok env
  exact ⟨r1 ++ r2, by simp [logPipelineE, Bind.bind, Except.bind, Pure.pure, Except.pure, hmd, h1, h2, hu]⟩

/-- Claim C1 witness: the theorem applied to the concrete state `stateC1`,
with every hypothesis discharged there. -/
theorem filterChain_emits_iff_witness :
    (stateC1.samplingRate = 1 ∧ stateC1.rateLimitEnabled = false ∧
      stateC1.categoryFilter ≠ some []) ∧
    ((logCall stateC1 0 0 .INFO "SYSTEM" "ready").1 = true ↔
      (stateC1.enabled = true ∧ stateC1.minLevel ≤ .INFO ∧
        "SYSTEM" ∉ stateC1.excludedCategories ∧
        ∀ l, stateC1.categoryFilter = some l → "SYSTEM" ∈ l)) := by
  constructor
  · exact ⟨rfl, rfl, by decide⟩
  · exact filterChain_emits_iff stateC1 0 0 .INFO "SYSTEM" "ready" rfl rfl (by decide)

end SCLogs
